import Mathlib

/-
Verification development for `sequential_parser.py` (kalessin/sequential-parser).

The Python module implements a state-machine text extractor: `sequential_parse`
walks a stream of text fragments, matching each fragment against the keys of a
caller-supplied transition table, assigning fragment text to fields of the
current record and splitting / stopping the run according to jump sentinels.

Shallow embedding notes:
* Python values appearing as table keys / jump targets (None, ints, strings)
  are modelled by `PyVal`.
* The regex engine is an external collaborator; it is modelled by a search
  oracle `SearchFn : String → String → Option (Option String)` giving, for a
  compiled key pattern and a candidate text, `none` when the search fails and
  `some g` when it succeeds, where `g` is the text of the first captured group
  (`none` when the pattern has no group or the group did not participate).
* The text cleaner `raw_to_text` (scrapely collaborator) is modelled by a
  function parameter `clean : String → String`.
* The tokenizer (`HtmlPage.parsed_body`) is out of scope per the spec: the
  input is modelled as the materialized list of tokens, each carrying the
  tag / text-content discrimination and its raw text.
* Python dicts are modelled as insertion-ordered association lists.
-/

/-- Values that can appear as transition-table keys or jump targets in the
Python code: the literal None, integers, or strings. -/
inductive PyVal where
  | vnone : PyVal
  | vint : Int → PyVal
  | vstr : String → PyVal
deriving DecidableEq

/-- A record in progress or completed: insertion-ordered mapping from field
name (possibly None) to the ordered list of extracted values. -/
abbrev Item := List (Option String × List String)

/-- A transition-table row: (field, jump). -/
abbrev Row := Option String × PyVal

/-- A transition table: insertion-ordered mapping from key to row. -/
abbrev Table := List (PyVal × Row)

/-- The regex-search oracle: for (key pattern, candidate text), `none` when the
compiled pattern's search fails, `some g` when it succeeds with captured
group `g` (which is `none` when the pattern has no capturing group). -/
abbrev SearchFn := String → String → Option (Option String)

/-- Python str.strip whitespace set (space, tab, newline, CR, VT, FF). -/
def pyIsSpace (c : Char) : Bool :=
  c == ' ' || c == '\t' || c == '\n' || c == '\r' || c.toNat == 11 || c.toNat == 12

/-- Strip leading and trailing whitespace from a character list. -/
def pyStripList (l : List Char) : List Char :=
  ((l.dropWhile pyIsSpace).reverse.dropWhile pyIsSpace).reverse

/-- Model of Python str.strip(), as applied at line 172 of the source. -/
def pyStrip (s : String) : String :=
  String.mk (pyStripList s.data)

/-- Dictionary lookup on the association-list model of `sections`. -/
def tblLookup (t : Table) (k : PyVal) : Option Row :=
  match t with
  | [] => none
  | (k2, r) :: rest => if k2 = k then some r else tblLookup rest k

/-- Model of the Python membership test `key in sections`. -/
def containsKey (t : Table) (k : PyVal) : Bool :=
  (tblLookup t k).isSome

/-- Model of `_switch(jump) = sections[jump]`; in the source it is only
invoked on keys that are present (checked or guaranteed), so the default
value is never reached on those paths. -/
def switch (t : Table) (k : PyVal) : Row :=
  (tblLookup t k).getD (none, PyVal.vnone)

/-- The textual keys of the table in declaration order: the domain of
`compiled_keys` (line 163 of the source). -/
def stringKeys (t : Table) : List String :=
  t.filterMap fun p =>
    match p.1 with
    | PyVal.vstr s => some s
    | _ => none

/-- Scan the compiled keys in order, returning the first key whose search
succeeds on `c` together with its captured group (the loop body of
`_match_key`, lines 15-18 of the source). -/
def scanKeys (search : SearchFn) (keys : List String) (c : String) :
    Option (PyVal × Option String) :=
  match keys with
  | [] => none
  | k :: rest =>
    match search k c with
    | some g => some (PyVal.vstr k, g)
    | none => scanKeys search rest c

/-- Model of `_match_key(candidate, compiled_keys_map)` (lines 13-19): for
textual candidates, the first matching pattern wins; otherwise the candidate
is returned unchanged with no capture. -/
def _match_key (candidate : PyVal) (compiledKeys : List String) (search : SearchFn) :
    PyVal × Option String :=
  match candidate with
  | PyVal.vstr c =>
    match scanKeys search compiledKeys c with
    | some r => r
    | none => (candidate, none)
  | _ => (candidate, none)

/-- Python truthiness of the captured-group value `append` (line 180
`if append:`): None and the empty string are falsy. -/
def pyTruthyStr (g : Option String) : Bool :=
  match g with
  | none => false
  | some s => decide (s ≠ "")

/-- Append a value to an existing field's list, leaving other fields
untouched (the `item[field].append(...)` part of `_set_field`). -/
def appendToField (item : Item) (f : Option String) (v : String) : Item :=
  match item with
  | [] => []
  | (f2, vs) :: rest =>
    if f2 = f then (f2, vs ++ [v]) :: rest else (f2, vs) :: appendToField rest f v

/-- Model of the Python membership test `field in item`. -/
def itemHasField (item : Item) (f : Option String) : Bool :=
  item.any fun p => decide (p.1 = f)

/-- Model of `_set_field(item, field, value)` (lines 152-155): create the
field with an empty list when absent, then append the cleaned value. -/
def _set_field (clean : String → String) (item : Item) (f : Option String) (v : String) : Item :=
  appendToField (if itemHasField item f then item else item ++ [(f, [])]) f (clean v)

/-- Model of the recurring closing fold `if item_data: subitems.append(item_data)`
(lines 187-188, 194-195, 208-209, 215-216). -/
def flushOf (subitems : List Item) (item : Item) : List Item :=
  if item = [] then subitems else subitems ++ [item]

/-- One tokenizer output element: tag / text-content discrimination plus the
raw body slice. -/
structure Token where
  isTag : Bool
  isTextContent : Bool
  raw : String
deriving DecidableEq

/-- The stripped text of a token (line 172 of the source). -/
def fragText (t : Token) : String := pyStrip t.raw

/-- The loop's filter (line 173): process the token only when it is not a tag,
is text content, and strips to a non-empty text. -/
def isFragment (t : Token) : Bool :=
  !t.isTag && t.isTextContent && decide (fragText t ≠ "")

/-- The state carried across fragments by the extraction loop. -/
structure MState where
  subitems : List Item
  item_data : Item
  current_field : Option String
  jump : PyVal
deriving DecidableEq

/-- Result of processing one fragment: either continue with a new state, or
stop immediately returning the completed records (the `return subitems`
paths at lines 190, 197, 211). -/
inductive StepRes where
  | cont : MState → StepRes
  | stop : List Item → StepRes
deriving DecidableEq

/-- The pending-jump resolution block, textually duplicated in the source at
lines 182-192 and 203-213: when the jump is None nothing happens; otherwise
the jump is resolved through `_match_key`, a resolved known key chains to its
row, and an unresolved value closes the record (returning everything when the
value is the hard-stop sentinel 0). -/
def resolvePendingJump (eff : Table) (cks : List String) (search : SearchFn)
    (subitems : List Item) (item : Item) (cf : Option String) (jump : PyVal) : StepRes :=
  if jump = PyVal.vnone then StepRes.cont ⟨subitems, item, cf, jump⟩
  else
    if containsKey eff (_match_key jump cks search).1 then
      StepRes.cont ⟨subitems, item, (switch eff (_match_key jump cks search).1).1,
        (switch eff (_match_key jump cks search).1).2⟩
    else if (_match_key jump cks search).1 = PyVal.vint 0 then
      StepRes.stop (flushOf subitems item)
    else
      StepRes.cont ⟨flushOf subitems item, [], (switch eff PyVal.vnone).1,
        (switch eff PyVal.vnone).2⟩

/-- The body of the loop after `key, append = _match_key(text, compiled_keys)`
(lines 175-213 of the source), as a function of the match result. -/
def stepAfterMatch (eff : Table) (cks : List String) (search : SearchFn)
    (clean : String → String) (st : MState) (text : String)
    (key : PyVal) (capv : Option String) : StepRes :=
  if containsKey eff key then
    if pyTruthyStr capv then
      resolvePendingJump eff cks search st.subitems
        (_set_field clean st.item_data (switch eff key).1 (capv.getD ""))
        (switch eff key).1 (switch eff key).2
    else if (switch eff key).1 = none ∧ containsKey eff (switch eff key).2 = false then
      if (switch eff key).2 = PyVal.vint 0 then
        StepRes.stop (flushOf st.subitems st.item_data)
      else
        StepRes.cont ⟨flushOf st.subitems st.item_data, [], (switch eff PyVal.vnone).1,
          (switch eff PyVal.vnone).2⟩
    else
      StepRes.cont ⟨st.subitems, st.item_data, (switch eff key).1, (switch eff key).2⟩
  else if st.current_field ≠ none then
    resolvePendingJump eff cks search st.subitems
      (_set_field clean st.item_data st.current_field text)
      st.current_field st.jump
  else StepRes.cont st

/-- Processing of one fragment: match the text, then run the branch body. -/
def stepCore (eff : Table) (cks : List String) (search : SearchFn)
    (clean : String → String) (st : MState) (text : String) : StepRes :=
  stepAfterMatch eff cks search clean st text
    (_match_key (PyVal.vstr text) cks search).1
    (_match_key (PyVal.vstr text) cks search).2

/-- The debug event emitted for a fragment (the `print "%s --> %s"` at line
178): one (key, row jump) pair when the fragment matched a known key. -/
def stepEvents (eff : Table) (cks : List String) (search : SearchFn) (text : String) :
    List (PyVal × PyVal) :=
  if containsKey eff (_match_key (PyVal.vstr text) cks search).1 then
    [((_match_key (PyVal.vstr text) cks search).1,
      (switch eff (_match_key (PyVal.vstr text) cks search).1).2)]
  else []

/-- The main loop over the token stream, returning the completed records
together with the emitted debug events. On exhaustion the in-progress record
is flushed (lines 214-218); a stop result is returned as-is. -/
def runT (eff : Table) (cks : List String) (search : SearchFn) (clean : String → String)
    (debug : Bool) : List Token → MState → List Item × List (PyVal × PyVal)
  | [], st => (flushOf st.subitems st.item_data, [])
  | t :: ts, st =>
    if isFragment t then
      match stepCore eff cks search clean st (fragText t) with
      | StepRes.cont st2 =>
        ((runT eff cks search clean debug ts st2).1,
          (if debug then stepEvents eff cks search (fragText t) else []) ++
            (runT eff cks search clean debug ts st2).2)
      | StepRes.stop res => (res, if debug then stepEvents eff cks search (fragText t) else [])
    else runT eff cks search clean debug ts st

/-- The machine state after consuming a prefix of the token stream, or `none`
when the run stopped inside the prefix. -/
def runSt (eff : Table) (cks : List String) (search : SearchFn) (clean : String → String) :
    List Token → MState → Option MState
  | [], st => some st
  | t :: ts, st =>
    if isFragment t then
      match stepCore eff cks search clean st (fragText t) with
      | StepRes.cont st2 => runSt eff cks search clean ts st2
      | StepRes.stop _ => none
    else runSt eff cks search clean ts st

/-- The effective transition table (lines 159-161): a copy of the caller's
table with the default None row added when absent. -/
def effSections (sections : Table) : Table :=
  if containsKey sections PyVal.vnone then sections
  else sections ++ [(PyVal.vnone, (none, PyVal.vnone))]

/-- The initial machine state (lines 168-170): empty results, empty record,
and the None row's (field, jump). -/
def initState (eff : Table) : MState :=
  ⟨[], [], (switch eff PyVal.vnone).1, (switch eff PyVal.vnone).2⟩

/-- Model of `sequential_parse(data, sections, encoding, debug)`: the returned
list of completed records. The token list stands for the tokenizer's output
on (data, encoding). -/
def sequential_parse (tokens : List Token) (sections : Table) (search : SearchFn)
    (clean : String → String) (debug : Bool) : List Item :=
  (runT (effSections sections) (stringKeys (effSections sections)) search clean debug tokens
    (initState (effSections sections))).1

/-- Model of the construction-time pattern compilation (line 163): compiling
every textual key either succeeds for all (and the machine runs, never
failing afterwards) or raises before any fragment is processed. `valid`
is the compilability oracle for patterns. -/
def sequential_parseE (tokens : List Token) (sections : Table) (search : SearchFn)
    (clean : String → String) (debug : Bool) (valid : String → Bool) :
    Except String (List Item) :=
  if (stringKeys (effSections sections)).all valid then
    Except.ok (sequential_parse tokens sections search clean debug)
  else Except.error "invalid pattern in section key"

/-- Spec-side predicate: fragment `text` processed in state `st` produces a
resolved jump value equal to the hard-stop sentinel 0 at one of the three
resolution points of the loop (capture branch line 183, no-capture
field-None branch line 193 where resolution is the identity on the integer
jump, and the literal-content branch line 204). -/
def resolvedJumpZero (eff : Table) (cks : List String) (search : SearchFn)
    (st : MState) (text : String) : Bool :=
  if containsKey eff (_match_key (PyVal.vstr text) cks search).1 then
    if pyTruthyStr (_match_key (PyVal.vstr text) cks search).2 then
      decide ((switch eff (_match_key (PyVal.vstr text) cks search).1).2 ≠ PyVal.vnone) &&
      decide ((_match_key (switch eff (_match_key (PyVal.vstr text) cks search).1).2
        cks search).1 = PyVal.vint 0)
    else
      decide ((switch eff (_match_key (PyVal.vstr text) cks search).1).1 = none) &&
      decide ((switch eff (_match_key (PyVal.vstr text) cks search).1).2 = PyVal.vint 0)
  else if st.current_field ≠ none then
    decide (st.jump ≠ PyVal.vnone) &&
    decide ((_match_key st.jump cks search).1 = PyVal.vint 0)
  else false

/-! ### Concrete fixtures used by witnesses and counterexamples -/

/-- Prefix test on character lists (witness infrastructure). -/
def isPrefixOfL : List Char → List Char → Bool
  | [], _ => true
  | _ :: _, [] => false
  | a :: as, b :: bs => a == b && isPrefixOfL as bs

/-- Substring test on character lists (witness infrastructure). -/
def containsL (n : List Char) : List Char → Bool
  | [] => isPrefixOfL n []
  | h :: t => isPrefixOfL n (h :: t) || containsL n t

/-- A concrete search oracle: a plain-text pattern matches any candidate that
contains it, with no capturing group (how a literal regex behaves under
re.search). -/
def subSearch : SearchFn := fun k c =>
  if containsL k.data c.data then some none else none

/-- A concrete search oracle matching only the exact text, no capture. -/
def eqSearch : SearchFn := fun k c =>
  if k = c then some none else none

/-- A text-content token with the given raw text. -/
def tok (s : String) : Token := ⟨false, true, s⟩

/-- Table for the C1 counterexample: the hard-stop sentinel 0 is itself a
key, so a resolved jump of 0 chains instead of stopping. -/
def sectionsCexA : Table :=
  [(PyVal.vstr "a", (some "f", PyVal.vint 0)),
   (PyVal.vint 0, (some "g", PyVal.vnone))]

/-- Table for the C2 counterexample: the row for "head" has field None and a
jump whose text is not a key but pattern-resolves to the key "head". -/
def sectionsCexB : Table :=
  [(PyVal.vstr "start", (some "f", PyVal.vnone)),
   (PyVal.vstr "head", (none, PyVal.vstr "head extra"))]

/-- Table for the C1 amended witness: fragment "a" arms the hard-stop jump. -/
def sectionsWa : Table := [(PyVal.vstr "a", (some "f", PyVal.vint 0))]

/-- Table for the C2 amended witness: fragment "h" has field None and an
unrecognized, non-zero jump. -/
def sectionsWb : Table := [(PyVal.vstr "h", (none, PyVal.vint 5))]

/-- Table for the C4 witness: a capturing key chaining to a second state. -/
def sectionsWc : Table :=
  [(PyVal.vstr "hh", (some "f", PyVal.vstr "s2")),
   (PyVal.vstr "s2", (some "g", PyVal.vnone))]

/-- Search oracle for the C4 witness: the key "hh" matches the fragment "hh"
capturing "cap"; every other key matches only its exact text. -/
def capSearchW : SearchFn := fun k c =>
  if k = "hh" then (if c = "hh" then some (some "cap") else none)
  else if k = c then some none else none

/-! ### Helper lemmas -/

theorem flushOf_eq (subitems : List Item) (item : Item) :
    flushOf subitems item = subitems ++ (if item = [] then [] else [item]) := by
  unfold flushOf
  split <;> simp

theorem mem_flushOf {subitems : List Item} {item it : Item}
    (h : it ∈ flushOf subitems item) : it ∈ subitems ∨ (item ≠ [] ∧ it = item) := by
  by_cases hi : item = []
  · simp [flushOf, hi] at h
    exact Or.inl h
  · simp [flushOf, hi] at h
    rcases h with h1 | h1
    · exact Or.inl h1
    · exact Or.inr ⟨hi, h1⟩

theorem tblLookup_eq_none {t : Table} {k : PyVal} (h : containsKey t k = false) :
    tblLookup t k = none := by
  unfold containsKey at h
  cases hl : tblLookup t k with
  | none => rfl
  | some r => rw [hl] at h; simp at h

theorem tblLookup_append_left {t : Table} {k : PyVal} (l : Table) (h : tblLookup t k = none) :
    tblLookup (t ++ l) k = tblLookup l k := by
  induction t with
  | nil => simp
  | cons p rest ih =>
    obtain ⟨k2, r⟩ := p
    by_cases hk : k2 = k
    · simp [tblLookup, hk] at h
    · simp only [List.cons_append, tblLookup, if_neg hk] at h ⊢
      exact ih h

theorem containsKey_append_self (t : Table) (k : PyVal) (r : Row) :
    containsKey (t ++ [(k, r)]) k = true := by
  induction t with
  | nil => simp [containsKey, tblLookup]
  | cons p rest ih =>
    obtain ⟨k2, r2⟩ := p
    by_cases hk : k2 = k
    · simp [containsKey, tblLookup, hk]
    · simp only [List.cons_append, containsKey, tblLookup, if_neg hk]
      exact ih

theorem stringKeys_append (a b : Table) :
    stringKeys (a ++ b) = stringKeys a ++ stringKeys b := by
  simp [stringKeys, List.filterMap_append]

theorem scanKeys_eq_none {search : SearchFn} {c : String} :
    ∀ {keys : List String}, (∀ k ∈ keys, search k c = none) →
      scanKeys search keys c = none := by
  intro keys
  induction keys with
  | nil => intro _; rfl
  | cons k rest ih =>
    intro h
    have hk : search k c = none := h k (List.mem_cons_self k rest)
    simp only [scanKeys, hk]
    exact ih fun k2 hk2 => h k2 (List.mem_cons_of_mem k hk2)

theorem scanKeys_first {search : SearchFn} {c : String} {k : String} {g : Option String}
    (l2 : List String) :
    ∀ l1 : List String, (∀ k2 ∈ l1, search k2 c = none) → search k c = some g →
      scanKeys search (l1 ++ k :: l2) c = some (PyVal.vstr k, g) := by
  intro l1
  induction l1 with
  | nil =>
    intro _ hk
    simp only [List.nil_append, scanKeys, hk]
  | cons k2 rest ih =>
    intro h hk
    have hk2 : search k2 c = none := h k2 (List.mem_cons_self k2 rest)
    simp only [List.cons_append, scanKeys, hk2]
    exact ih (fun k3 hk3 => h k3 (List.mem_cons_of_mem k2 hk3)) hk

theorem runT_fst_debug (eff : Table) (cks : List String) (search : SearchFn)
    (clean : String → String) (d1 d2 : Bool) :
    ∀ (ts : List Token) (st : MState),
      (runT eff cks search clean d1 ts st).1 = (runT eff cks search clean d2 ts st).1 := by
  intro ts
  induction ts with
  | nil => intro st; rfl
  | cons t ts ih =>
    intro st
    simp only [runT]
    by_cases hf : isFragment t = true
    · simp only [hf, if_true]
      cases hs : stepCore eff cks search clean st (fragText t) with
      | cont st2 => exact ih st2
      | stop res => rfl
    · simp only [hf, if_false]
      exact ih st

theorem runT_append (eff : Table) (cks : List String) (search : SearchFn)
    (clean : String → String) (d : Bool) (l2 : List Token) :
    ∀ (l1 : List Token) (st st2 : MState),
      runSt eff cks search clean l1 st = some st2 →
      (runT eff cks search clean d (l1 ++ l2) st).1 = (runT eff cks search clean d l2 st2).1 := by
  intro l1
  induction l1 with
  | nil =>
    intro st st2 h
    simp only [runSt, Option.some.injEq] at h
    rw [h]
    rfl
  | cons t ts ih =>
    intro st st2 h
    simp only [runSt] at h
    simp only [List.cons_append, runT]
    by_cases hf : isFragment t = true
    · simp only [hf, if_true] at h ⊢
      cases hs : stepCore eff cks search clean st (fragText t) with
      | cont st3 =>
        rw [hs] at h
        exact ih st3 st2 h
      | stop res =>
        rw [hs] at h
        exact absurd h (by simp)
    · simp only [hf, if_false] at h ⊢
      exact ih st st2 h

/-! ### The non-emptiness invariant (claim C5) -/

/-- Every field of the record holds at least one value. -/
def goodItem (it : Item) : Prop := ∀ p ∈ it, p.2 ≠ []

/-- Every completed record is non-empty and has non-empty field lists. -/
def goodList (l : List Item) : Prop := ∀ it ∈ l, it ≠ [] ∧ goodItem it

/-- The invariant carried by the loop state. -/
def goodState (st : MState) : Prop := goodList st.subitems ∧ goodItem st.item_data

/-- The invariant transported to a step result. -/
def goodRes : StepRes → Prop
  | StepRes.cont st => goodState st
  | StepRes.stop res => goodList res

theorem goodItem_nil : goodItem [] := by
  intro p hp
  exact absurd hp (List.not_mem_nil p)

theorem goodItem_appendToField {item : Item} (h : goodItem item) (f : Option String)
    (v : String) : goodItem (appendToField item f v) := by
  induction item with
  | nil => simpa [appendToField] using h
  | cons p rest ih =>
    obtain ⟨f2, vs⟩ := p
    have hrest : goodItem rest := fun q hq => h q (List.mem_cons_of_mem _ hq)
    have hhd : vs ≠ [] := h (f2, vs) (List.mem_cons_self _ _)
    by_cases hf : f2 = f
    · simp only [appendToField, if_pos hf]
      intro q hq
      rcases List.mem_cons.mp hq with hq1 | hq1
      · rw [hq1]; simp
      · exact h q (List.mem_cons_of_mem _ hq1)
    · simp only [appendToField, if_neg hf]
      intro q hq
      rcases List.mem_cons.mp hq with hq1 | hq1
      · rw [hq1]; exact hhd
      · exact ih hrest q hq1

theorem goodItem_appendToField_new {f : Option String} (v : String) :
    ∀ {item : Item}, itemHasField item f = false → goodItem item →
      goodItem (appendToField (item ++ [(f, [])]) f v) := by
  intro item
  induction item with
  | nil =>
    intro _ _
    simp only [List.nil_append, appendToField, if_pos rfl]
    intro q hq
    rcases List.mem_cons.mp hq with hq1 | hq1
    · rw [hq1]; simp
    · exact absurd hq1 (List.not_mem_nil q)
  | cons p rest ih =>
    intro hno h
    obtain ⟨f2, vs⟩ := p
    have hf : ¬(f2 = f) := by
      intro hc
      simp [itemHasField, hc] at hno
    simp only [List.cons_append, appendToField, if_neg hf]
    intro q hq
    rcases List.mem_cons.mp hq with hq1 | hq1
    · rw [hq1]
      exact h (f2, vs) (List.mem_cons_self _ _)
    · have hno2 : itemHasField rest f = false := by
        simp only [itemHasField, List.any_cons, Bool.or_eq_false_iff] at hno
        exact hno.2
      exact ih hno2 (fun q2 hq2 => h q2 (List.mem_cons_of_mem _ hq2)) q hq1

theorem goodItem_set_field {item : Item} (h : goodItem item) (clean : String → String)
    (f : Option String) (v : String) : goodItem (_set_field clean item f v) := by
  unfold _set_field
  by_cases hh : itemHasField item f = true
  · rw [if_pos hh]
    exact goodItem_appendToField h f (clean v)
  · rw [if_neg hh]
    exact goodItem_appendToField_new (clean v) (Bool.not_eq_true _ ▸ hh) h

theorem set_field_ne_nil (clean : String → String) (item : Item) (f : Option String)
    (v : String) : _set_field clean item f v ≠ [] := by
  unfold _set_field
  by_cases hh : itemHasField item f = true
  · rw [if_pos hh]
    induction item with
    | nil => simp [itemHasField] at hh
    | cons p rest ih =>
      obtain ⟨f2, vs⟩ := p
      by_cases hf : f2 = f <;> simp [appendToField, hf]
  · rw [if_neg hh]
    induction item with
    | nil => simp [appendToField]
    | cons p rest ih =>
      obtain ⟨f2, vs⟩ := p
      by_cases hf : f2 = f <;> simp [appendToField, hf]

theorem goodList_flushOf {subitems : List Item} {item : Item}
    (hs : goodList subitems) (hi : goodItem item) : goodList (flushOf subitems item) := by
  intro it hit
  rcases mem_flushOf hit with h | ⟨hne, heq⟩
  · exact hs it h
  · rw [heq]
    exact ⟨hne, hi⟩

theorem goodRes_resolvePendingJump (eff : Table) (cks : List String) (search : SearchFn)
    {subitems : List Item} {item : Item} (cf : Option String) (jump : PyVal)
    (hs : goodList subitems) (hi : goodItem item) :
    goodRes (resolvePendingJump eff cks search subitems item cf jump) := by
  unfold resolvePendingJump
  split
  · exact ⟨hs, hi⟩
  · split
    · exact ⟨hs, hi⟩
    · split
      · exact goodList_flushOf hs hi
      · exact ⟨goodList_flushOf hs hi, goodItem_nil⟩

theorem goodRes_stepCore (eff : Table) (cks : List String) (search : SearchFn)
    (clean : String → String) {st : MState} (text : String) (hst : goodState st) :
    goodRes (stepCore eff cks search clean st text) := by
  unfold stepCore stepAfterMatch
  split
  · split
    · exact goodRes_resolvePendingJump eff cks search _ _ hst.1
        (goodItem_set_field hst.2 clean _ _)
    · split
      · split
        · exact goodList_flushOf hst.1 hst.2
        · exact ⟨goodList_flushOf hst.1 hst.2, goodItem_nil⟩
      · exact ⟨hst.1, hst.2⟩
  · split
    · exact goodRes_resolvePendingJump eff cks search _ _ hst.1
        (goodItem_set_field hst.2 clean _ _)
    · exact hst

theorem goodList_runT (eff : Table) (cks : List String) (search : SearchFn)
    (clean : String → String) (d : Bool) :
    ∀ (ts : List Token) (st : MState), goodState st →
      goodList (runT eff cks search clean d ts st).1 := by
  intro ts
  induction ts with
  | nil =>
    intro st h
    exact goodList_flushOf h.1 h.2
  | cons t ts ih =>
    intro st h
    simp only [runT]
    by_cases hf : isFragment t = true
    · simp only [hf, if_true]
      have hg := goodRes_stepCore eff cks search clean (fragText t) h
      cases hs : stepCore eff cks search clean st (fragText t) with
      | cont st2 =>
        rw [hs] at hg
        exact ih st2 hg
      | stop res =>
        rw [hs] at hg
        exact hg
    · simp only [hf, if_false]
      exact ih st h

/-! ### The hard-stop characterization (claim C1) -/

theorem stepZero (eff : Table) (cks : List String) (search : SearchFn)
    (clean : String → String) {st : MState} {text : String}
    (h0 : containsKey eff (PyVal.vint 0) = false)
    (hz : resolvedJumpZero eff cks search st text = true) :
    ∃ it : Item, (it = st.item_data ∨ ∃ f v, it = _set_field clean st.item_data f v) ∧
      stepCore eff cks search clean st text = StepRes.stop (flushOf st.subitems it) := by
  unfold resolvedJumpZero at hz
  unfold stepCore stepAfterMatch
  by_cases hk : containsKey eff (_match_key (PyVal.vstr text) cks search).1 = true
  · rw [if_pos hk] at hz
    rw [if_pos hk]
    by_cases ht : pyTruthyStr (_match_key (PyVal.vstr text) cks search).2 = true
    · rw [if_pos ht] at hz
      rw [if_pos ht]
      rw [Bool.and_eq_true, decide_eq_true_eq, decide_eq_true_eq] at hz
      obtain ⟨hj, hz0⟩ := hz
      refine ⟨_set_field clean st.item_data
        (switch eff (_match_key (PyVal.vstr text) cks search).1).1
        ((_match_key (PyVal.vstr text) cks search).2.getD ""),
        Or.inr ⟨_, _, rfl⟩, ?_⟩
      unfold resolvePendingJump
      rw [if_neg hj, hz0, if_neg (by simp [h0]), if_pos rfl]
    · rw [if_neg ht] at hz
      rw [if_neg ht]
      rw [Bool.and_eq_true, decide_eq_true_eq, decide_eq_true_eq] at hz
      obtain ⟨hfn, hz0⟩ := hz
      have hc : containsKey eff (switch eff (_match_key (PyVal.vstr text) cks search).1).2
          = false := by rw [hz0]; exact h0
      rw [if_pos ⟨hfn, hc⟩, if_pos hz0]
      exact ⟨st.item_data, Or.inl rfl, rfl⟩
  · rw [if_neg hk] at hz
    rw [if_neg hk]
    by_cases hcf : st.current_field ≠ none
    · rw [if_pos hcf] at hz
      rw [if_pos hcf]
      rw [Bool.and_eq_true, decide_eq_true_eq, decide_eq_true_eq] at hz
      obtain ⟨hj, hz0⟩ := hz
      refine ⟨_set_field clean st.item_data st.current_field text,
        Or.inr ⟨st.current_field, text, rfl⟩, ?_⟩
      unfold resolvePendingJump
      rw [if_neg hj, hz0, if_neg (by simp [h0]), if_pos rfl]
    · rw [if_neg hcf] at hz
      exact absurd hz (by simp)

/-- C1 (corrected, hypothesis added that the sentinel 0 is not itself a table
key): when a resolved jump value equals the hard-stop sentinel 0 while
processing fragment `t`, `sequential_parse` returns immediately: the
fragments in `l2` after the stopping fragment are never consumed, the
in-progress record (after any extraction performed by the stopping fragment)
is appended exactly once if and only if it is non-empty, and the result is
exactly the records closed up to and including that one. -/
theorem C1_hard_stop_truncates (sections : Table) (search : SearchFn)
    (clean : String → String) (debug : Bool) (l1 : List Token) (t : Token)
    (l2 : List Token) (st : MState)
    (h0 : containsKey (effSections sections) (PyVal.vint 0) = false)
    (hf : isFragment t = true)
    (hrun : runSt (effSections sections) (stringKeys (effSections sections)) search clean l1
      (initState (effSections sections)) = some st)
    (hz : resolvedJumpZero (effSections sections) (stringKeys (effSections sections)) search st
      (fragText t) = true) :
    ∃ it : Item, (it = st.item_data ∨ ∃ f v, it = _set_field clean st.item_data f v) ∧
      sequential_parse (l1 ++ t :: l2) sections search clean debug =
        st.subitems ++ (if it = [] then [] else [it]) := by
  obtain ⟨it, hit, hstep⟩ := stepZero (effSections sections)
    (stringKeys (effSections sections)) search clean h0 hz
  refine ⟨it, hit, ?_⟩
  unfold sequential_parse
  rw [runT_append (effSections sections) (stringKeys (effSections sections)) search clean debug
    (t :: l2) l1 (initState (effSections sections)) st hrun]
  simp only [runT, hf, if_true, hstep]
  exact flushOf_eq st.subitems it

/-- Witness for C1: a concrete run in which fragment "b" resolves the armed
jump 0 and the parse stops with the in-progress record included once. -/
theorem C1_hard_stop_truncates_witness :
    containsKey (effSections sectionsWa) (PyVal.vint 0) = false ∧
    (∃ it : Item,
      (it = (⟨[], [], some "f", PyVal.vint 0⟩ : MState).item_data ∨
        ∃ f v, it = _set_field id (⟨[], [], some "f", PyVal.vint 0⟩ : MState).item_data f v) ∧
      sequential_parse ([tok "a"] ++ tok "b" :: [tok "c"]) sectionsWa eqSearch id false =
        (⟨[], [], some "f", PyVal.vint 0⟩ : MState).subitems ++ (if it = [] then [] else [it])) :=
  ⟨by decide,
    C1_hard_stop_truncates sectionsWa eqSearch id false [tok "a"] (tok "b") [tok "c"]
      ⟨[], [], some "f", PyVal.vint 0⟩ (by decide) (by decide) (by decide) (by decide)⟩

/-- Counterexample for C1 as stated: with the integer 0 itself a table key,
fragment "b" produces a resolved jump value equal to 0, yet the parse does
not stop; the later fragment "c" is consumed and contributes to the output,
which therefore differs from the truncation the claim predicts. -/
theorem C1_counterexample :
    resolvedJumpZero (effSections sectionsCexA) (stringKeys (effSections sectionsCexA)) eqSearch
      ⟨[], [], some "f", PyVal.vint 0⟩ "b" = true ∧
    runSt (effSections sectionsCexA) (stringKeys (effSections sectionsCexA)) eqSearch id
      [tok "a"] (initState (effSections sectionsCexA)) =
        some ⟨[], [], some "f", PyVal.vint 0⟩ ∧
    fragText (tok "b") = "b" ∧ isFragment (tok "b") = true ∧
    sequential_parse [tok "a", tok "b", tok "c"] sectionsCexA eqSearch id false =
      [[(some "f", ["b"]), (some "g", ["c"])]] ∧
    sequential_parse [tok "a", tok "b", tok "c"] sectionsCexA eqSearch id false ≠
      [[(some "f", ["b"])]] := by
  decide

/-! ### The field-None no-capture branch (claim C2) -/

/-- C2 (corrected): for a fragment whose lookup resolves to a known table row
with no (truthy) captured group and whose row field is None, the
record-closing procedure is triggered immediately, using that row's raw jump
as the closing signal, if and only if that raw jump is not literally a key of
the table — membership is tested on the raw jump directly, with no
pattern-matching resolution — and nothing is extracted for that fragment
(the record accumulator is never extended). -/
theorem C2_field_none_literal_close (eff : Table) (cks : List String) (search : SearchFn)
    (clean : String → String) (st : MState) (text : String)
    (ht : pyTruthyStr (_match_key (PyVal.vstr text) cks search).2 = false)
    (hk : containsKey eff (_match_key (PyVal.vstr text) cks search).1 = true)
    (hfn : (switch eff (_match_key (PyVal.vstr text) cks search).1).1 = none) :
    stepCore eff cks search clean st text =
      (if containsKey eff (switch eff (_match_key (PyVal.vstr text) cks search).1).2 then
        StepRes.cont ⟨st.subitems, st.item_data, none,
          (switch eff (_match_key (PyVal.vstr text) cks search).1).2⟩
      else if (switch eff (_match_key (PyVal.vstr text) cks search).1).2 = PyVal.vint 0 then
        StepRes.stop (flushOf st.subitems st.item_data)
      else
        StepRes.cont ⟨flushOf st.subitems st.item_data, [], (switch eff PyVal.vnone).1,
          (switch eff PyVal.vnone).2⟩) := by
  unfold stepCore stepAfterMatch
  rw [if_pos hk, if_neg (by simp [ht])]
  by_cases hj : containsKey eff (switch eff (_match_key (PyVal.vstr text) cks search).1).2 = true
  · have hcond : ¬((switch eff (_match_key (PyVal.vstr text) cks search).1).1 = none ∧
        containsKey eff (switch eff (_match_key (PyVal.vstr text) cks search).1).2 = false) := by
      intro hc
      rw [hj] at hc
      exact absurd hc.2 (by simp)
    rw [if_neg hcond, if_pos hj, hfn]
  · have hjf : containsKey eff (switch eff (_match_key (PyVal.vstr text) cks search).1).2
        = false := by
      revert hj
      cases containsKey eff (switch eff (_match_key (PyVal.vstr text) cks search).1).2 <;> simp
    rw [if_pos ⟨hfn, hjf⟩, if_neg hj]

/-- Witness for C2 (amended): the fragment "h" resolves to a known row with
field None and raw jump 5, which is not a table key, so the record in
progress is closed and the machine resets to the None row. -/
theorem C2_field_none_literal_close_witness :
    pyTruthyStr (_match_key (PyVal.vstr "h") (stringKeys (effSections sectionsWb))
        eqSearch).2 = false ∧
    containsKey (effSections sectionsWb) (_match_key (PyVal.vstr "h")
        (stringKeys (effSections sectionsWb)) eqSearch).1 = true ∧
    stepCore (effSections sectionsWb) (stringKeys (effSections sectionsWb)) eqSearch id
      ⟨[], [(some "f", ["x"])], some "f", PyVal.vnone⟩ "h" =
      (if containsKey (effSections sectionsWb)
          (switch (effSections sectionsWb) (_match_key (PyVal.vstr "h")
            (stringKeys (effSections sectionsWb)) eqSearch).1).2 then
        StepRes.cont ⟨[], [(some "f", ["x"])], none,
          (switch (effSections sectionsWb) (_match_key (PyVal.vstr "h")
            (stringKeys (effSections sectionsWb)) eqSearch).1).2⟩
      else if (switch (effSections sectionsWb) (_match_key (PyVal.vstr "h")
          (stringKeys (effSections sectionsWb)) eqSearch).1).2 = PyVal.vint 0 then
        StepRes.stop (flushOf [] [(some "f", ["x"])])
      else
        StepRes.cont ⟨flushOf [] [(some "f", ["x"])], [],
          (switch (effSections sectionsWb) PyVal.vnone).1,
          (switch (effSections sectionsWb) PyVal.vnone).2⟩) :=
  ⟨by decide, by decide,
    C2_field_none_literal_close (effSections sectionsWb) (stringKeys (effSections sectionsWb))
      eqSearch id ⟨[], [(some "f", ["x"])], some "f", PyVal.vnone⟩ "h"
      (by decide) (by decide) (by decide)⟩

/-- Counterexample for C2 as stated: in table sectionsCexB the row for "head"
has field None and jump "head extra"; that jump pattern-resolves (via
`_match_key`) to the known key "head", so under the claim's resolution
semantics no record closing would occur at the fragment "head", and the run
would produce a single record. The code instead tests the raw jump literally,
closes the record, and produces two records. -/
theorem C2_counterexample :
    _match_key (PyVal.vstr "head") (stringKeys (effSections sectionsCexB)) subSearch =
      (PyVal.vstr "head", none) ∧
    switch (effSections sectionsCexB) (PyVal.vstr "head") = (none, PyVal.vstr "head extra") ∧
    containsKey (effSections sectionsCexB)
      (_match_key (PyVal.vstr "head extra") (stringKeys (effSections sectionsCexB))
        subSearch).1 = true ∧
    sequential_parse [tok "start", tok "data", tok "head", tok "start", tok "data2"]
      sectionsCexB subSearch id false = [[(some "f", ["data"])], [(some "f", ["data2"])]] ∧
    sequential_parse [tok "start", tok "data", tok "head", tok "start", tok "data2"]
      sectionsCexB subSearch id false ≠ [[(some "f", ["data", "data2"])]] := by
  decide

/-! ### Unresolved-jump record closing (claim C3) -/

/-- C3 (confirmed): whenever a pending jump is resolved (through `_match_key`,
as happens at both resolution sites of the loop via `resolvePendingJump`)
and the resolved value is neither a recognized table key nor the hard-stop
sentinel 0, the current record is closed — appended to the results exactly
when non-empty — and processing restarts with a fresh empty accumulator and
the None row's (field, jump) as the new state, regardless of the current
field `cf`. -/
theorem C3_unresolved_jump_closes (eff : Table) (cks : List String) (search : SearchFn)
    (subitems : List Item) (item : Item) (cf : Option String) (jump : PyVal)
    (hnn : jump ≠ PyVal.vnone)
    (hnk : containsKey eff (_match_key jump cks search).1 = false)
    (hnz : (_match_key jump cks search).1 ≠ PyVal.vint 0) :
    resolvePendingJump eff cks search subitems item cf jump =
      StepRes.cont ⟨subitems ++ (if item = [] then [] else [item]), [],
        (switch eff PyVal.vnone).1, (switch eff PyVal.vnone).2⟩ := by
  unfold resolvePendingJump
  rw [if_neg hnn, if_neg (by simp [hnk]), if_neg hnz, flushOf_eq]

/-- Witness for C3: with a non-empty record in progress and pending jump 7
(not a key of the table, not 0), the record is closed and the state resets
to the None row. -/
theorem C3_unresolved_jump_closes_witness :
    (PyVal.vint 7 : PyVal) ≠ PyVal.vnone ∧
    containsKey (effSections sectionsWa)
      (_match_key (PyVal.vint 7) (stringKeys (effSections sectionsWa)) eqSearch).1 = false ∧
    resolvePendingJump (effSections sectionsWa) (stringKeys (effSections sectionsWa)) eqSearch
      [] [(some "f", ["x"])] (some "f") (PyVal.vint 7) =
      StepRes.cont ⟨[] ++ (if ([(some "f", ["x"])] : Item) = [] then [] else [[(some "f", ["x"])]]),
        [], (switch (effSections sectionsWa) PyVal.vnone).1,
        (switch (effSections sectionsWa) PyVal.vnone).2⟩ :=
  ⟨by decide, by decide,
    C3_unresolved_jump_closes (effSections sectionsWa) (stringKeys (effSections sectionsWa))
      eqSearch [] [(some "f", ["x"])] (some "f") (PyVal.vint 7)
      (by decide) (by decide) (by decide)⟩

/-! ### Chained jumps (claim C4) -/

/-- C4 (confirmed): when a pending jump resolves (via the table lookup
`_match_key`) to a known key, that key's row (field, jump) is adopted before
the next fragment is read (first conjunct: the resolution procedure returns
a continue-state carrying exactly that row, whose own jump is left
unresolved, so at most one chained resolution occurs per fragment); and when
the triggering match produced a captured-group value, that value is appended
to the new current field before the chain is followed (second conjunct: the
full fragment step stores the capture under the first row's field and then
adopts the chained row). -/
theorem C4_chained_jump (eff : Table) (cks : List String) (search : SearchFn)
    (clean : String → String) :
    (∀ (subitems : List Item) (item : Item) (cf : Option String) (jump : PyVal),
      jump ≠ PyVal.vnone →
      containsKey eff (_match_key jump cks search).1 = true →
      resolvePendingJump eff cks search subitems item cf jump =
        StepRes.cont ⟨subitems, item, (switch eff (_match_key jump cks search).1).1,
          (switch eff (_match_key jump cks search).1).2⟩) ∧
    (∀ (st : MState) (text : String) (key : PyVal) (v : String) (cf1 : Option String)
        (j1 j2 : PyVal),
      _match_key (PyVal.vstr text) cks search = (key, some v) → v ≠ "" →
      containsKey eff key = true → switch eff key = (cf1, j1) → j1 ≠ PyVal.vnone →
      (_match_key j1 cks search).1 = j2 → containsKey eff j2 = true →
      stepCore eff cks search clean st text =
        StepRes.cont ⟨st.subitems, _set_field clean st.item_data cf1 v,
          (switch eff j2).1, (switch eff j2).2⟩) := by
  constructor
  · intro subitems item cf jump hnn hk
    unfold resolvePendingJump
    rw [if_neg hnn, if_pos hk]
  · intro st text key v cf1 j1 j2 hm hv hk hrow hj1 hres hk2
    unfold stepCore stepAfterMatch
    rw [hm]
    simp only
    rw [if_pos hk]
    have ht : pyTruthyStr (some v) = true := by
      simp [pyTruthyStr, hv]
    rw [if_pos ht]
    unfold resolvePendingJump
    rw [hrow]
    simp only [Option.getD_some]
    rw [if_neg hj1, hres, if_pos hk2]

/-- Witness for C4: jump "s2" resolves to the known key "s2" and chains
(first conjunct), and the capture "cap" from fragment "hh" is stored under
the first row's field "f" before the chain to "s2" is followed (second
conjunct). -/
theorem C4_chained_jump_witness :
    (PyVal.vstr "s2" : PyVal) ≠ PyVal.vnone ∧
    containsKey (effSections sectionsWc)
      (_match_key (PyVal.vstr "s2") (stringKeys (effSections sectionsWc)) capSearchW).1 = true ∧
    resolvePendingJump (effSections sectionsWc) (stringKeys (effSections sectionsWc)) capSearchW
      [] [] none (PyVal.vstr "s2") =
      StepRes.cont ⟨[], [],
        (switch (effSections sectionsWc)
          (_match_key (PyVal.vstr "s2") (stringKeys (effSections sectionsWc)) capSearchW).1).1,
        (switch (effSections sectionsWc)
          (_match_key (PyVal.vstr "s2") (stringKeys (effSections sectionsWc)) capSearchW).1).2⟩ ∧
    stepCore (effSections sectionsWc) (stringKeys (effSections sectionsWc)) capSearchW id
      ⟨[], [], none, PyVal.vnone⟩ "hh" =
      StepRes.cont ⟨[], _set_field id [] (some "f") "cap",
        (switch (effSections sectionsWc) (PyVal.vstr "s2")).1,
        (switch (effSections sectionsWc) (PyVal.vstr "s2")).2⟩ :=
  ⟨by decide, by decide,
    (C4_chained_jump (effSections sectionsWc) (stringKeys (effSections sectionsWc)) capSearchW
      id).1 [] [] none (PyVal.vstr "s2") (by decide) (by decide),
    (C4_chained_jump (effSections sectionsWc) (stringKeys (effSections sectionsWc)) capSearchW
      id).2 ⟨[], [], none, PyVal.vnone⟩ "hh" (PyVal.vstr "hh") "cap" (some "f")
      (PyVal.vstr "s2") (PyVal.vstr "s2") (by decide) (by decide) (by decide) (by decide)
      (by decide) (by decide) (by decide)⟩

/-! ### Non-empty records in, empty records out (claim C5) -/

/-- C5 (confirmed): every record in the list returned by `sequential_parse`
is non-empty (it has at least one field, and every field holds at least one
value); and the accumulator in progress when the stream is exhausted is not
dropped (when non-empty it is appended to the results by the final flush). -/
theorem C5_nonempty_records :
    (∀ (tokens : List Token) (sections : Table) (search : SearchFn) (clean : String → String)
        (debug : Bool) (it : Item),
      it ∈ sequential_parse tokens sections search clean debug →
        it ≠ [] ∧ ∀ p ∈ it, p.2 ≠ []) ∧
    (∀ (eff : Table) (cks : List String) (search : SearchFn) (clean : String → String)
        (debug : Bool) (st : MState), st.item_data ≠ [] →
      (runT eff cks search clean debug [] st).1 = st.subitems ++ [st.item_data]) := by
  constructor
  · intro tokens sections search clean debug it hit
    have hg : goodState (initState (effSections sections)) :=
      ⟨fun it2 hit2 => absurd hit2 (List.not_mem_nil _), goodItem_nil⟩
    have hres := goodList_runT (effSections sections) (stringKeys (effSections sections))
      search clean debug tokens (initState (effSections sections)) hg it hit
    exact ⟨hres.1, hres.2⟩
  · intro eff cks search clean debug st h
    simp only [runT, flushOf, if_neg h]

/-- Witness for C5: the single record produced by a concrete run is non-empty
with non-empty field lists. -/
theorem C5_nonempty_records_witness :
    ([(some "f", ["b"])] : Item) ≠ [] ∧ ∀ p ∈ ([(some "f", ["b"])] : Item), p.2 ≠ [] :=
  C5_nonempty_records.1 [tok "a", tok "b"] sectionsWa eqSearch id false
    [(some "f", ["b"])] (by decide)

/-! ### The default None row (claim C6) -/

/-- C6 (confirmed): a transition table with no None key behaves exactly like
the same table with the entry None to (None, None) explicitly appended, and
the effective table's None row — from which the starting (current_field,
pending_jump) is taken by `initState` — is (None, None). -/
theorem C6_default_none_row (sections : Table)
    (h : containsKey sections PyVal.vnone = false) :
    (∀ (tokens : List Token) (search : SearchFn) (clean : String → String) (debug : Bool),
      sequential_parse tokens sections search clean debug =
        sequential_parse tokens (sections ++ [(PyVal.vnone, (none, PyVal.vnone))])
          search clean debug) ∧
    tblLookup (effSections sections) PyVal.vnone = some (none, PyVal.vnone) := by
  have he : effSections sections = sections ++ [(PyVal.vnone, (none, PyVal.vnone))] := by
    unfold effSections
    rw [if_neg (by simp [h])]
  have he2 : effSections (sections ++ [(PyVal.vnone, (none, PyVal.vnone))]) =
      sections ++ [(PyVal.vnone, (none, PyVal.vnone))] := by
    unfold effSections
    rw [if_pos (containsKey_append_self sections PyVal.vnone (none, PyVal.vnone))]
  constructor
  · intro tokens search clean debug
    unfold sequential_parse
    rw [he, he2]
  · rw [he, tblLookup_append_left [(PyVal.vnone, (none, PyVal.vnone))] (tblLookup_eq_none h)]
    simp [tblLookup]

/-- Witness for C6: a concrete table without a None key parses identically to
its completion with the default None row, and its effective None row is
(None, None). -/
theorem C6_default_none_row_witness :
    containsKey sectionsWa PyVal.vnone = false ∧
    (sequential_parse [tok "a", tok "b"] sectionsWa eqSearch id false =
      sequential_parse [tok "a", tok "b"] (sectionsWa ++ [(PyVal.vnone, (none, PyVal.vnone))])
        eqSearch id false) ∧
    tblLookup (effSections sectionsWa) PyVal.vnone = some (none, PyVal.vnone) :=
  ⟨by decide,
    (C6_default_none_row sectionsWa (by decide)).1 [tok "a", tok "b"] eqSearch id false,
    (C6_default_none_row sectionsWa (by decide)).2⟩

/-! ### The lookup operation (claim C7) -/

/-- C7 (confirmed): `_match_key` on a textual candidate returns the pair
(matched key, captured group) for the first compiled pattern in scan order
whose search succeeds on the candidate; when no pattern succeeds it returns
the candidate itself with no capture; and on integer or None candidates it
returns the candidate directly with no capture, no pattern matching
attempted. -/
theorem C7_match_key_lookup (cks : List String) (search : SearchFn) :
    (∀ n : Int, _match_key (PyVal.vint n) cks search = (PyVal.vint n, none)) ∧
    _match_key PyVal.vnone cks search = (PyVal.vnone, none) ∧
    (∀ c : String, (∀ k ∈ cks, search k c = none) →
      _match_key (PyVal.vstr c) cks search = (PyVal.vstr c, none)) ∧
    (∀ (l1 : List String) (k : String) (l2 : List String) (c : String) (g : Option String),
      cks = l1 ++ k :: l2 → (∀ k2 ∈ l1, search k2 c = none) → search k c = some g →
      _match_key (PyVal.vstr c) cks search = (PyVal.vstr k, g)) := by
  refine ⟨fun n => rfl, rfl, ?_, ?_⟩
  · intro c h
    simp only [_match_key, scanKeys_eq_none h]
  · intro l1 k l2 c g hcks h1 hk
    subst hcks
    simp only [_match_key, scanKeys_first l2 l1 h1 hk]

/-- Witness for C7: with keys ["x", "y"] under the exact-match oracle, the
candidate "z" matches nothing and falls through unchanged, while the
candidate "y" is matched by the second pattern after the first fails. -/
theorem C7_match_key_lookup_witness :
    _match_key (PyVal.vstr "z") ["x", "y"] eqSearch = (PyVal.vstr "z", none) ∧
    _match_key (PyVal.vstr "y") ["x", "y"] eqSearch = (PyVal.vstr "y", none) :=
  ⟨(C7_match_key_lookup ["x", "y"] eqSearch).2.2.1 "z" (by decide),
    (C7_match_key_lookup ["x", "y"] eqSearch).2.2.2 ["x"] "y" [] "y" none rfl
      (by decide) (by decide)⟩

/-! ### Fail-fast pattern compilation (claim C8) -/

/-- C8 (confirmed): when some textual key of the supplied table is an invalid
pattern (per the compilability oracle `valid`), the run fails before any
fragment is processed — the error result is the same for every token stream
and no record is produced; when every textual key is a valid pattern, the
run never fails, for any input content whatsoever. -/
theorem C8_fail_fast (sections : Table) (search : SearchFn) (clean : String → String)
    (debug : Bool) (valid : String → Bool) :
    (∀ tokens : List Token, (∃ k ∈ stringKeys (effSections sections), valid k = false) →
      sequential_parseE tokens sections search clean debug valid =
        Except.error "invalid pattern in section key") ∧
    (∀ tokens : List Token, (∀ k ∈ stringKeys (effSections sections), valid k = true) →
      sequential_parseE tokens sections search clean debug valid =
        Except.ok (sequential_parse tokens sections search clean debug)) := by
  constructor
  · rintro tokens ⟨k, hk, hv⟩
    have hnall : ¬((stringKeys (effSections sections)).all valid = true) := by
      intro hall
      rw [List.all_eq_true] at hall
      have h2 := hall k hk
      rw [hv] at h2
      exact absurd h2 (by simp)
    unfold sequential_parseE
    rw [if_neg hnall]
  · intro tokens hall
    have hcond : (stringKeys (effSections sections)).all valid = true :=
      List.all_eq_true.mpr hall
    unfold sequential_parseE
    rw [if_pos hcond]

/-- Witness for C8: with the everywhere-invalid oracle the run fails for a
concrete table and stream; with the everywhere-valid oracle it succeeds. -/
theorem C8_fail_fast_witness :
    sequential_parseE [tok "a"] sectionsWa eqSearch id false (fun _ => false) =
      Except.error "invalid pattern in section key" ∧
    sequential_parseE [tok "a"] sectionsWa eqSearch id false (fun _ => true) =
      Except.ok (sequential_parse [tok "a"] sectionsWa eqSearch id false) :=
  ⟨(C8_fail_fast sectionsWa eqSearch id false (fun _ => false)).1 [tok "a"]
      ⟨"a", by decide, rfl⟩,
    (C8_fail_fast sectionsWa eqSearch id false (fun _ => true)).2 [tok "a"]
      (fun _ _ => rfl)⟩

/-! ### Debug trace does not affect results (claim C9) -/

/-- C9 (confirmed): for every token stream and transition table, the records
returned by `sequential_parse` with the debug toggle enabled equal those
returned with it disabled; the trace events are accumulated separately and
never feed back into the extraction state. -/
theorem C9_debug_invariant (tokens : List Token) (sections : Table) (search : SearchFn)
    (clean : String → String) :
    sequential_parse tokens sections search clean true =
      sequential_parse tokens sections search clean false := by
  unfold sequential_parse
  exact runT_fst_debug (effSections sections) (stringKeys (effSections sections)) search clean
    true false tokens (initState (effSections sections))

/-! ### Empty capture behaves as no capture (claim C10) -/

/-- C10 (confirmed): a fragment whose matching pattern captures the empty
string is processed exactly as if the pattern had no capturing group at all:
the captured value is tested for truthiness (`if append:`), the empty string
is falsy, so nothing is appended for the capture and the no-captured-group
branch is taken. -/
theorem C10_empty_capture_as_no_capture (eff : Table) (cks : List String) (search : SearchFn)
    (clean : String → String) (st : MState) (text : String) (key : PyVal) :
    stepAfterMatch eff cks search clean st text key (some "") =
      stepAfterMatch eff cks search clean st text key none := by
  rfl
